import Mathlib

/-
Verification of the VideoSplit client core (src/static/admin.js and the
shared fetch wrapper in src/static/auth.js) against its natural-language
specification.  The upload queue, the batch upload pipeline and the
session gateway are embedded shallowly below; theorems about the claims
follow after the definitions.
-/

namespace VideoSplit

/- ===================================================================
   Data model: files and queue items (admin.js, "Multi-file Queue")
   =================================================================== -/

/-- A selected browser file: only its name and byte size matter to the
client-side logic. -/
structure VFile where
  name : String
  size : Nat
deriving DecidableEq, Repr

/-- admin.js:779 — `const allowed = ['.mp4', '.mov', '.avi', '.mkv']`. -/
def allowedExts : List String := [".mp4", ".mov", ".avi", ".mkv"]

/-- JavaScript `str.split('.')` over the character list (structural, so
concrete instances evaluate by kernel reduction). -/
def splitOnDot : List Char → List (List Char)
  | [] => [[]]
  | c :: rest =>
    match splitOnDot rest with
    | [] => [[]]
    | cur :: parts => if c = '.' then [] :: cur :: parts else (c :: cur) :: parts

/-- ASCII lower-casing of one character, as `toLowerCase` acts on the
extension alphabet. -/
def lowerChar (c : Char) : Char :=
  if 65 ≤ c.toNat ∧ c.toNat ≤ 90 then Char.ofNat (c.toNat + 32) else c

/-- admin.js:780 — `'.' + (file.name.split('.').pop() || '').toLowerCase()`
(`pop` takes the last split component; on a dot-free name that is the
whole name). -/
def extOf (name : String) : String :=
  ⟨'.' :: ((splitOnDot name.data).getLastD []).map lowerChar⟩

/-- admin.js item lifecycle values: 'queued' | 'uploading' | 'done' | 'failed'. -/
inductive Status where
  | queued
  | uploading
  | done
  | failed
deriving DecidableEq, Repr

/-- The parsed success payload of `/api/v1/split` (opaque to the client
except for the job identifier). -/
structure Payload where
  jobId : Nat
deriving DecidableEq, Repr

/-- A queue entry: admin.js:783 pushes `{ id, file, status: 'queued' }`;
`result` is attached on success in processQueue (admin.js:834). -/
structure QItem where
  id : String
  file : VFile
  status : Status
  result : Option Payload
deriving DecidableEq, Repr

instance : Inhabited QItem := ⟨⟨"", ⟨"", 0⟩, .queued, none⟩⟩

/-- admin.js:782 — the 500 MiB limit `500 * 1024 * 1024`. -/
def maxBytes : Nat := 500 * 1024 * 1024

/-- admin.js:778-784 `addToQueue(file)`: reject unknown extension, then
reject oversize, else push a fresh QUEUED item.  The random id is passed
in explicitly (`Math.random().toString(36).slice(2)` in the source). -/
def addToQueue (fid : String) (f : VFile) (q : List QItem) : List QItem :=
  if !(allowedExts.contains (extOf f.name)) then q
  else if maxBytes < f.size then q
  else q ++ [⟨fid, f, .queued, none⟩]

/-- admin.js:802-803 `removeFromQueue(id)`:
`fileQueue = fileQueue.filter(f => f.id !== id)`. -/
def removeFromQueue (i : String) (q : List QItem) : List QItem :=
  q.filter (fun f => f.id != i)

/-- admin.js:413-439 `handleFileSelect(file)` restricted to its state
effect on `selectedFile`: same extension allow-list, same strict 500 MiB
test; on a validation error `selectedFile` is left as it was. -/
def handleFileSelect (f : VFile) (sel : Option VFile) : Option VFile :=
  if !(allowedExts.contains (extOf f.name)) then sel
  else if maxBytes < f.size then sel
  else some f

/-- admin.js:298 `toAdd.forEach(f => addToQueue(f))`.  `gen k` supplies the
k-th random id; the counter advances exactly when an item was accepted
(the source draws its random id only on the accepting push). -/
def enqueueFiles (gen : Nat → String) (k : Nat) : List VFile → List QItem → List QItem
  | [], q => q
  | f :: fs, q =>
    let q' := addToQueue (gen k) f q
    enqueueFiles gen (if q.length < q'.length then k + 1 else k) fs q'

/-- JavaScript `xs.slice(0, e)`: a negative end counts from the end of the
array, and the result is clamped to the array. -/
def jsSliceTo {α : Type} (xs : List α) (e : Int) : List α :=
  if 0 ≤ e then xs.take e.toNat else xs.take ((xs.length : Int) + e).toNat

/-- The two pieces of upload-selection state mutated by the admin page:
the multi-file queue and the single selected file. -/
structure UploadUI where
  queue : List QItem
  selected : Option VFile
deriving DecidableEq, Repr

/-- admin.js:287-305, the `fileInput` change handler: with several files
and a multi-file plan it trims the batch to `maxFiles - fileQueue.length`
via `files.slice(0, ...)` and enqueues the remainder one by one;
otherwise it falls back to `handleFileSelect(files[0])` (the queue is
untouched on that path; the source assumes a nonempty selection there). -/
def filesChange (gen : Nat → String) (k : Nat) (files : List VFile)
    (maxFiles : Nat) (ui : UploadUI) : UploadUI :=
  if 1 < files.length ∧ 1 < maxFiles then
    let toAdd := jsSliceTo files ((maxFiles : Int) - (ui.queue.length : Int))
    { ui with queue := enqueueFiles gen k toAdd ui.queue }
  else
    match files with
    | [] => ui
    | f :: _ => { ui with selected := handleFileSelect f ui.selected }

/- ===================================================================
   Upload pipeline (admin.js:811-856, processQueue)
   =================================================================== -/

/-- Outcome of one transport attempt, as seen at the per-item try/catch
boundary in processQueue: `res.ok` with parsed data, a non-ok response
(`res.ok` false, admin.js:837), or a thrown exception (network failure,
JSON parse failure, ... — the `catch` at admin.js:839). -/
inductive TransportResult where
  | ok (p : Payload)
  | httpError (status : Nat)
  | thrown
deriving DecidableEq, Repr

def TransportResult.isOk : TransportResult → Bool
  | .ok _ => true
  | _ => false

/-- One queue-progress event, in the order processQueue emits them:
the `renderQueue()` right after `item.status = 'uploading'`, the start of
the `apiFetch` transport for the item, and the `renderQueue()` after the
terminal status was stored. -/
inductive Ev where
  | reportUploading (i : Nat)
  | startTransport (i : Nat)
  | terminal (i : Nat) (ok : Bool)
deriving DecidableEq, Repr

/-- The original index an event talks about. -/
def Ev.idx : Ev → Nat
  | .reportUploading i => i
  | .startTransport i => i
  | .terminal i _ => i

/-- How one loop iteration of processQueue settles its item: `res.ok`
stores DONE plus the parsed data (admin.js:831-835); a non-ok response or
a thrown error stores FAILED (admin.js:836-841). -/
def settleItem (it : QItem) : TransportResult → QItem
  | .ok p => { it with status := Status.done, result := some p }
  | _ => { it with status := Status.failed }

/-- The `for (const item of fileQueue)` loop of processQueue: items are
settled one at a time in order; `tp i` is the transport outcome for the
item at original index `i`.  Returns the settled items (in place, in
order) and the emitted event trace. -/
def runQueue (tp : Nat → TransportResult) : List QItem → Nat → List QItem × List Ev
  | [], _ => ([], [])
  | it :: rest, i =>
    let r := runQueue tp rest (i + 1)
    (settleItem it (tp i) :: r.1,
      Ev.reportUploading i :: Ev.startTransport i :: Ev.terminal i (tp i).isOk :: r.2)

/-- Aggregate outcome of a processQueue run: the settled queue, the event
trace, and the display action — `some p` for `displayResults(firstSuccess.result)`
(admin.js:849-852), `none` for the all-failed `showError` (admin.js:854). -/
structure PQResult where
  queue : List QItem
  trace : List Ev
  display : Option Payload
deriving DecidableEq, Repr

/-- admin.js:811-856 `processQueue()`: early return on an empty queue,
otherwise drain the queue sequentially and pick
`fileQueue.find(f => f.status === 'done')` as the representative result. -/
def processQueue (tp : Nat → TransportResult) (q : List QItem) : Option PQResult :=
  if q.isEmpty then none
  else
    let r := runQueue tp q 0
    some ⟨r.1, r.2, (r.1.find? (fun f => f.status == Status.done)).bind QItem.result⟩

/-- Data payload of an `ok` outcome (dummy on the failure kinds). -/
def payloadOf : TransportResult → Payload
  | .ok p => p
  | _ => ⟨0⟩

/-- First original index with an `ok` transport outcome. -/
def firstOkIdx (tp : Nat → TransportResult) (n : Nat) : Option Nat :=
  (List.range n).find? (fun i => (tp i).isOk)

/- ===================================================================
   Session gateway (auth.js fetch wrapper, apiFetch at auth.js:336-376)

   The wrapper runs on a single-threaded, cooperative event loop; each
   `await fetch(...)` is a suspension point.  A gateway run is modelled
   as a global state plus one small state machine per outstanding
   request; a schedule says whose pending step completes next.
   =================================================================== -/

/-- localStorage token pair (`vs_access_token` / `vs_refresh_token`). -/
structure Store where
  access : Option String
  refresh : Option String
deriving DecidableEq, Repr

/-- The remote service: which bearer token it currently accepts, which
refresh credential is valid, and the pair the refresh endpoint would
issue next. -/
structure Server where
  validAccess : String
  validRefresh : String
  nextAccess : String
  nextRefresh : String
deriving DecidableEq, Repr

/-- A response is 200 exactly when the bearer token sent matches the
token the server currently accepts, else 401. -/
def fetchOk (sv : Server) (tok : Option String) : Bool :=
  tok == some sv.validAccess

/-- Control state of one apiFetch call between suspension points. -/
inductive RState where
  | start
  | awaitInitial (tok : Option String)
  | awaitRefresh
  | awaitRetry (tok : String)
  | done (ok : Bool)
deriving DecidableEq, Repr

/-- Process-wide state: the token store, the server, the module-level
`_refreshing` flag and `_refreshQueue` list (auth.js:333-334), counters
for issued refresh calls and forced logouts, and the per-request
machines. -/
structure GState where
  store : Store
  server : Server
  refreshing : Bool
  refreshQueue : List Nat
  refreshCalls : Nat
  logouts : Nat
  reqs : List RState
deriving DecidableEq, Repr

def setReq (g : GState) (i : Nat) (r : RState) : GState :=
  { g with reqs := g.reqs.set i r }

/-- Resume request `i`, currently in the given control state, after its
pending I/O completed.  Faithful to apiFetch:
* start: read the token, send the initial fetch (auth.js:337-342);
* initial response: on 401 with a refresh credential present, become the
  leader if `_refreshing` is false (set the flag, issue the single
  refresh call, auth.js:346-353) — otherwise fall straight through to
  the retry with whatever `getToken()` currently returns (auth.js:367-372;
  note that nothing is ever pushed onto `_refreshQueue`, so a follower
  does not suspend);
* refresh response: on success store the new pair and release the (empty)
  waiter list, on failure clear the tokens and force a logout; in both
  cases the `finally` clears the flag and the list before the leader
  proceeds to its retry (auth.js:354-372);
* retry response: returned as is — a second 401 is not handled again. -/
def reqStep (g : GState) (i : Nat) : RState → GState
  | .start => setReq g i (.awaitInitial g.store.access)
  | .awaitInitial tok =>
    if fetchOk g.server tok then setReq g i (.done true)
    else
      match g.store.refresh with
      | none => setReq g i (.done false)
      | some _ =>
        if g.refreshing then
          match g.store.access with
          | some t => setReq g i (.awaitRetry t)
          | none => setReq g i (.done false)
        else
          setReq { g with refreshing := true, refreshCalls := g.refreshCalls + 1 }
            i .awaitRefresh
  | .awaitRefresh =>
    if g.store.refresh == some g.server.validRefresh then
      let sv := g.server
      let g1 : GState :=
        { g with
          store := ⟨some sv.nextAccess, some sv.nextRefresh⟩,
          server := { sv with validAccess := sv.nextAccess, validRefresh := sv.nextRefresh },
          refreshing := false, refreshQueue := [] }
      match g1.store.access with
      | some t => setReq g1 i (.awaitRetry t)
      | none => setReq g1 i (.done false)
    else
      setReq
        { g with store := ⟨none, none⟩, refreshing := false, refreshQueue := [],
                 logouts := g.logouts + 1 }
        i (.done false)
  | .awaitRetry t => setReq g i (.done (fetchOk g.server (some t)))
  | .done _ => g

/-- Dispatch the next completed event to request `i`. -/
def handleEvent (g : GState) (i : Nat) : GState :=
  reqStep g i (g.reqs.getD i (.done false))

/-- Run a schedule of completions. -/
def run (g : GState) (sched : List Nat) : GState :=
  sched.foldl handleEvent g

/-- Initial process state with `n` requests about to be issued. -/
def mkInit (st : Store) (sv : Server) (n : Nat) : GState :=
  ⟨st, sv, false, [], 0, 0, List.replicate n .start⟩

/- ===================================================================
   Single-file path (admin.js:466-584, splitVideo)
   =================================================================== -/

/-- Outcome of the single-file path: the displayed result payload on
success or the message passed to `showError`, plus the number of refresh
calls this path issued. -/
structure SingleResult where
  success : Option Payload
  errorMsg : Option String
  refreshCalls : Nat
deriving DecidableEq, Repr

/-- HTTP status the upload endpoint answers with for a given bearer
token, in the two-status server model used throughout. -/
def xhrStatus (sv : Server) (tok : Option String) : Nat :=
  if fetchOk sv tok then 200 else 401

/-- admin.js:466-584 `splitVideo()`: a raw XMLHttpRequest carrying the
current access token.  Its status handling (admin.js:551-567) maps 200
to `displayResults`, and 401/402/429/other to `showError` messages; it
never consults the refresh credential and never issues a refresh call. -/
def splitVideo (st : Store) (sv : Server) (grant : Payload) : SingleResult :=
  let status := xhrStatus sv st.access
  if status == 200 then ⟨some grant, none, 0⟩
  else if status == 401 then ⟨none, some "Please sign in to upload videos.", 0⟩
  else if status == 402 then
    ⟨none, some "Monthly usage limit reached. Please upgrade your plan.", 0⟩
  else if status == 429 then
    ⟨none, some "Too many requests. Please wait a moment and try again.", 0⟩
  else ⟨none, some "Failed to process video", 0⟩

/-- Transport of one pipeline item through the session gateway: a full
apiFetch run of a single request against the given store and server
(schedule long enough for every suspension; `done` states absorb). -/
def gatewayTransport (st : Store) (sv : Server) (grant : Payload) : TransportResult :=
  match (run (mkInit st sv 1) [0, 0, 0, 0]).reqs.getD 0 (.done false) with
  | .done true => .ok grant
  | _ => .httpError 401

/- ===================================================================
   Orderings on event traces
   =================================================================== -/

/-- `precedesIn a b tr`: in trace `tr`, some occurrence of `a` comes
before every occurrence of `b` (every prefix containing `b` contains `a`). -/
def precedesIn (a b : Ev) (tr : List Ev) : Prop :=
  ∀ n, b ∈ tr.take n → a ∈ tr.take n

/- ===================================================================
   Concrete inputs used by witnesses and counterexamples
   =================================================================== -/

/-- An expired access token `t0` alongside a valid refresh token `r0`. -/
def st0 : Store := ⟨some "t0", some "r0"⟩

/-- The server currently accepts `t1` (so `t0` is expired) and its
refresh endpoint would issue the pair `(t1, r1)` for `r0`. -/
def sv0 : Server := ⟨"t1", "r0", "t1", "r1"⟩

/-- Schedule for two concurrently faulting requests: both are issued and
both fault before the leader's refresh resolves. -/
def schedC1 : List Nat := [0, 1, 0, 1, 0, 1, 0]

def fileA : VFile := ⟨"a.mp4", 10⟩
def fileB : VFile := ⟨"b.mp4", 20⟩
def fileC : VFile := ⟨"c.mp4", 30⟩

def itA : QItem := ⟨"a", fileA, .queued, none⟩
def itB : QItem := ⟨"b", fileB, .queued, none⟩
def itC : QItem := ⟨"c", fileC, .queued, none⟩

/-- An item already UPLOADING, for the removal counterexample. -/
def itUp : QItem := ⟨"u", ⟨"u.mp4", 40⟩, .uploading, none⟩

/-- Spec §8 scenario: item 2 of 3 fails transport, items 1 and 3 succeed. -/
def tp3 : Nat → TransportResult :=
  fun i => if i == 0 then .ok ⟨10⟩ else if i == 1 then .httpError 500 else .ok ⟨30⟩

def q3 : List QItem := [itA, itB, itC]

/-- A trivial id generator for concrete runs. -/
def gen0 : Nat → String := fun k => toString k

/-- A process state in which request 0 already replayed its request with
the stale token `t0` after a completed refresh cycle. -/
def gRetry : GState := ⟨⟨some "t0", some "r0"⟩, sv0, false, [], 1, 0, [.awaitRetry "t0"]⟩

/-- The expected aggregate of running the spec §8 scenario `tp3` on `q3`. -/
def pqr3 : PQResult :=
  ⟨[⟨"a", fileA, .done, some ⟨10⟩⟩, ⟨"b", fileB, .failed, none⟩,
    ⟨"c", fileC, .done, some ⟨30⟩⟩],
   [.reportUploading 0, .startTransport 0, .terminal 0 true,
    .reportUploading 1, .startTransport 1, .terminal 1 false,
    .reportUploading 2, .startTransport 2, .terminal 2 true],
   some ⟨10⟩⟩

/- ===================================================================
   Helper lemmas (shared; none of these is a claim's theorem)
   =================================================================== -/

theorem getD_of_le (l : List α) (i : Nat) (d : α) (h : l.length ≤ i) :
    l.getD i d = d := by
  induction l generalizing i with
  | nil => rfl
  | cons x xs ih =>
    cases i with
    | zero => simp at h
    | succ n => simpa using ih n (by simpa using h)

theorem getD_set_self (l : List α) (i : Nat) (a d : α) (h : i < l.length) :
    (l.set i a).getD i d = a := by
  induction l generalizing i with
  | nil => simp at h
  | cons x xs ih =>
    cases i with
    | zero => rfl
    | succ n => simpa using ih n (by simpa using h)

/- ===================================================================
   Claim theorems
   =================================================================== -/

/-- C1: the claim demands that every caller finding a refresh in flight
suspends until the leader's refresh resolves and that all concurrently
faulting requests observe one shared outcome.  Evaluating the gateway on
two concurrently faulting requests (both 401 with a valid refresh
credential present, the second faulting while the leader's refresh call
is still in flight) shows the code violates this: exactly one refresh
call is issued and no terminal failure occurs, yet request 0 (the
leader) succeeds while request 1 (the follower) fails — the follower
never suspends (nothing is ever pushed onto `_refreshQueue`) and replays
immediately with the stale access token. -/
theorem c1_failing_trace :
    (run (mkInit st0 sv0 2) schedC1).refreshCalls = 1 ∧
    (run (mkInit st0 sv0 2) schedC1).logouts = 0 ∧
    (run (mkInit st0 sv0 2) schedC1).reqs = [.done true, .done false] := by
  decide

/-- C2: a replayed request that itself returns 401 never triggers a
second refresh: resuming a request that is awaiting its single replay
leaves the process-wide refresh-call count unchanged and settles the
request terminally with exactly the replay's outcome (`done false` when
the replay is rejected again), and the settled request absorbs any
further events — so no number of forced repeated expiries can make it
refresh again. -/
theorem c2_no_second_refresh (g : GState) (i : Nat) (t : String)
    (h : g.reqs.getD i (.done false) = .awaitRetry t) :
    (handleEvent g i).refreshCalls = g.refreshCalls ∧
    (handleEvent g i).reqs.getD i (.done false) = .done (fetchOk g.server (some t)) ∧
    handleEvent (handleEvent g i) i = handleEvent g i := by
  have hlen : i < g.reqs.length := by
    rcases Nat.lt_or_ge i g.reqs.length with h1 | h1
    · exact h1
    · rw [getD_of_le _ _ _ h1] at h
      cases h
  have hstep : handleEvent g i = setReq g i (.done (fetchOk g.server (some t))) := by
    unfold handleEvent
    rw [h]
    rfl
  refine ⟨by rw [hstep]; simp [setReq], ?_, ?_⟩
  · rw [hstep]
    simp only [setReq]
    exact getD_set_self _ _ _ _ hlen
  · rw [hstep]
    unfold handleEvent
    simp only [setReq]
    rw [getD_set_self _ _ _ _ (by simpa using hlen)]
    rfl

/-- Removal never consults the status: if every surviving element of the
queue carries a different id, the filter is the identity. -/
theorem removeFromQueue_of_absent (i : String) (q : List QItem)
    (h : ∀ f ∈ q, f.id ≠ i) : removeFromQueue i q = q := by
  unfold removeFromQueue
  rw [List.filter_eq_self]
  intro a ha
  simpa [bne_iff_ne] using h a ha

/-- With pairwise distinct ids, removing a present id drops exactly one
element. -/
theorem removeFromQueue_len (i : String) :
    ∀ q : List QItem, (q.map QItem.id).Nodup →
      ∀ f ∈ q, f.id = i → (removeFromQueue i q).length + 1 = q.length := by
  intro q
  induction q with
  | nil => intro _ f hf; cases hf
  | cons x rest ih =>
    intro hnd f hf hid
    rw [List.map_cons, List.nodup_cons] at hnd
    obtain ⟨hx, hrest⟩ := hnd
    rcases List.mem_cons.mp hf with rfl | hmem
    · have hnone : ∀ g ∈ rest, g.id ≠ i := by
        intro g hg hgi
        exact hx (by rw [hid, ← hgi]; exact List.mem_map_of_mem QItem.id hg)
      unfold removeFromQueue
      rw [List.filter_cons_of_neg (by simp [hid])]
      have hres := removeFromQueue_of_absent i rest hnone
      unfold removeFromQueue at hres
      rw [hres]
      simp
    · have hxne : x.id ≠ i := by
        intro hxi
        exact hx (by rw [hxi, ← hid]; exact List.mem_map_of_mem QItem.id hmem)
      unfold removeFromQueue
      rw [List.filter_cons_of_pos (by simp [bne_iff_ne, hxne])]
      have hres := ih hrest f hmem hid
      unfold removeFromQueue at hres
      simp only [List.length_cons]
      omega

/-- C3 counterexample: the claim states that removing an id whose item is
UPLOADING is a no-op, but `removeFromQueue` filters purely by id and does
remove the UPLOADING item `itUp`. -/
theorem c3_remove_ignores_status :
    removeFromQueue "u" [itUp] = [] ∧ ([] : List QItem) ≠ [itUp] := by
  decide

/-- C3 (amended): `removeFromQueue id` filters by id alone — removing an
absent id is a no-op that raises no error; with pairwise distinct ids,
removing a present id (whatever its status) drops exactly that one
element; the survivors keep their relative order (the result is a
sublist) and every item with a different id survives. -/
theorem c3_remove_spec (i : String) (q : List QItem) :
    ((∀ f ∈ q, f.id ≠ i) → removeFromQueue i q = q) ∧
    ((q.map QItem.id).Nodup →
      ∀ f ∈ q, f.id = i → (removeFromQueue i q).length + 1 = q.length) ∧
    List.Sublist (removeFromQueue i q) q ∧
    (∀ f ∈ q, f.id ≠ i → f ∈ removeFromQueue i q) := by
  refine ⟨removeFromQueue_of_absent i q, removeFromQueue_len i q, ?_, ?_⟩
  · exact List.filter_sublist q
  · intro f hf hne
    exact List.mem_filter.mpr ⟨hf, by simp [bne_iff_ne, hne]⟩

/-- C3 witness: removing the QUEUED item `itB` from a two-item queue
drops exactly one element, and removing an absent id is a no-op. -/
theorem c3_remove_spec_witness :
    (removeFromQueue "b" [itA, itB]).length + 1 = [itA, itB].length ∧
    removeFromQueue "z" [itA, itB] = [itA, itB] :=
  ⟨(c3_remove_spec "b" [itA, itB]).2.1 (by decide) itB (by decide) (by decide),
   (c3_remove_spec "z" [itA, itB]).1 (by decide)⟩

theorem addToQueue_of_bad_ext (fid : String) (f : VFile) (q : List QItem)
    (h : allowedExts.contains (extOf f.name) = false) : addToQueue fid f q = q := by
  unfold addToQueue
  rw [h]
  simp

theorem addToQueue_of_ok (fid : String) (f : VFile) (q : List QItem)
    (hext : allowedExts.contains (extOf f.name) = true) (hsz : f.size ≤ maxBytes) :
    addToQueue fid f q = q ++ [⟨fid, f, .queued, none⟩] := by
  unfold addToQueue
  rw [hext]
  simp [Nat.not_lt.mpr hsz]

theorem addToQueue_of_oversize (fid : String) (f : VFile) (q : List QItem)
    (hsz : maxBytes < f.size) : addToQueue fid f q = q := by
  unfold addToQueue
  by_cases hext : allowedExts.contains (extOf f.name) <;> simp [hext, hsz]

theorem enqueueFiles_cons (gen : Nat → String) (k : Nat) (f : VFile) (fs : List VFile)
    (q : List QItem) :
    enqueueFiles gen k (f :: fs) q =
      enqueueFiles gen (if q.length < (addToQueue (gen k) f q).length then k + 1 else k)
        fs (addToQueue (gen k) f q) := rfl

/-- C5: a file whose (lower-cased, last-component) extension is outside
the `{mp4, mov, avi, mkv}` allow-list is rejected by `addToQueue` without
mutating the queue, and dropping it from the middle of any batch leaves
the batch's enqueue result unchanged — only that file is rejected, never
the whole batch. -/
theorem c5_bad_ext_rejected (f : VFile) (fid : String) (q : List QItem)
    (gen : Nat → String) (k : Nat) (xs ys : List VFile)
    (h : allowedExts.contains (extOf f.name) = false) :
    addToQueue fid f q = q ∧
    enqueueFiles gen k (xs ++ f :: ys) q = enqueueFiles gen k (xs ++ ys) q := by
  refine ⟨addToQueue_of_bad_ext fid f q h, ?_⟩
  induction xs generalizing k q with
  | nil =>
    show enqueueFiles gen k (f :: ys) q = enqueueFiles gen k ys q
    rw [enqueueFiles_cons, addToQueue_of_bad_ext (gen k) f q h]
    simp
  | cons x xs ih =>
    show enqueueFiles gen k (x :: (xs ++ f :: ys)) q = enqueueFiles gen k (x :: (xs ++ ys)) q
    rw [enqueueFiles_cons, enqueueFiles_cons]
    exact ih _ _

/-- C5 witness: a `.txt` file is rejected from a batch of valid videos
without disturbing the rest of the batch. -/
theorem c5_witness :
    addToQueue "x" ⟨"notes.txt", 5⟩ [itA] = [itA] ∧
    enqueueFiles gen0 0 ([fileA] ++ ⟨"notes.txt", 5⟩ :: [fileB]) [] =
      enqueueFiles gen0 0 ([fileA] ++ [fileB]) [] :=
  ⟨(c5_bad_ext_rejected ⟨"notes.txt", 5⟩ "x" [itA] gen0 0 [] [] (by decide)).1,
   (c5_bad_ext_rejected ⟨"notes.txt", 5⟩ "x" [] gen0 0 [fileA] [fileB] (by decide)).2⟩

/-- C10: with a valid extension, a file of exactly 500·1024·1024 bytes is
accepted (both by the queue's `addToQueue` and by the single-file
`handleFileSelect`); the size check rejects exactly the files strictly
above that bound, and the same strict inequality governs both entry
points. -/
theorem c10_size_boundary (f : VFile) (fid : String) (q : List QItem)
    (hext : allowedExts.contains (extOf f.name) = true) :
    (f.size = maxBytes →
      addToQueue fid f q = q ++ [⟨fid, f, .queued, none⟩] ∧
      handleFileSelect f none = some f) ∧
    (addToQueue fid f q = q ↔ maxBytes < f.size) ∧
    (handleFileSelect f none = some f ↔ f.size ≤ maxBytes) := by
  refine ⟨?_, ⟨?_, ?_⟩, ?_⟩
  · intro he
    have hsz : f.size ≤ maxBytes := le_of_eq he
    refine ⟨addToQueue_of_ok fid f q hext hsz, ?_⟩
    unfold handleFileSelect
    rw [hext]
    simp [Nat.not_lt.mpr hsz]
  · intro heq
    by_contra hs
    rw [addToQueue_of_ok fid f q hext (Nat.not_lt.mp hs)] at heq
    have := congrArg List.length heq
    simp at this
  · intro hs
    exact addToQueue_of_oversize fid f q hs
  · constructor
    · intro heq
      by_contra hs
      rw [Nat.not_le] at hs
      unfold handleFileSelect at heq
      rw [hext] at heq
      simp [hs] at heq
    · intro hs
      unfold handleFileSelect
      rw [hext]
      simp [Nat.not_lt.mpr hs]

/-- C10 witness: a `.mp4` file of exactly 500 MiB is accepted on both
paths; one byte more is rejected on both paths. -/
theorem c10_witness :
    (addToQueue "x" ⟨"a.mp4", maxBytes⟩ [] =
      [] ++ [⟨"x", ⟨"a.mp4", maxBytes⟩, .queued, none⟩] ∧
     handleFileSelect ⟨"a.mp4", maxBytes⟩ none = some ⟨"a.mp4", maxBytes⟩) ∧
    (addToQueue "x" ⟨"a.mp4", maxBytes + 1⟩ [] = [] ↔ maxBytes < maxBytes + 1) :=
  ⟨(c10_size_boundary ⟨"a.mp4", maxBytes⟩ "x" [] (by decide)).1 rfl,
   (c10_size_boundary ⟨"a.mp4", maxBytes + 1⟩ "x" [] (by decide)).2.1⟩

theorem addToQueue_len_bounds (fid : String) (f : VFile) (q : List QItem) :
    q.length ≤ (addToQueue fid f q).length ∧
    (addToQueue fid f q).length ≤ q.length + 1 := by
  unfold addToQueue
  split
  · omega
  · split
    · omega
    · simp

theorem enqueueFiles_len_le (gen : Nat → String) :
    ∀ (fs : List VFile) (k : Nat) (q : List QItem),
      (enqueueFiles gen k fs q).length ≤ q.length + fs.length := by
  intro fs
  induction fs with
  | nil => intro k q; simp [enqueueFiles]
  | cons f fs ih =>
    intro k q
    rw [enqueueFiles_cons]
    have h1 := (addToQueue_len_bounds (gen k) f q).2
    have h2 := ih (if q.length < (addToQueue (gen k) f q).length then k + 1 else k)
      (addToQueue (gen k) f q)
    simp only [List.length_cons]
    omega

theorem enqueueFiles_len_exact (gen : Nat → String) :
    ∀ (fs : List VFile) (k : Nat) (q : List QItem),
      (∀ f ∈ fs, allowedExts.contains (extOf f.name) = true ∧ f.size ≤ maxBytes) →
      (enqueueFiles gen k fs q).length = q.length + fs.length := by
  intro fs
  induction fs with
  | nil => intro k q _; simp [enqueueFiles]
  | cons f fs ih =>
    intro k q hall
    have hf := hall f (List.mem_cons_self f fs)
    rw [enqueueFiles_cons, addToQueue_of_ok (gen k) f q hf.1 hf.2]
    have hc : q.length < (q ++ [(⟨gen k, f, .queued, none⟩ : QItem)]).length := by simp
    rw [if_pos hc]
    have h2 := ih (k + 1) (q ++ [(⟨gen k, f, .queued, none⟩ : QItem)])
      (fun g hg => hall g (List.mem_cons_of_mem f hg))
    simp at h2 ⊢
    omega

theorem enqueueFiles_append (gen : Nat → String) :
    ∀ (fs : List VFile) (k : Nat) (q : List QItem),
      ∃ t, enqueueFiles gen k fs q = q ++ t := by
  intro fs
  induction fs with
  | nil => intro k q; exact ⟨[], by simp [enqueueFiles]⟩
  | cons f fs ih =>
    intro k q
    rw [enqueueFiles_cons]
    by_cases h1 : allowedExts.contains (extOf f.name) = false
    · rw [addToQueue_of_bad_ext (gen k) f q h1, if_neg (lt_irrefl q.length)]
      exact ih k q
    · have h1' : allowedExts.contains (extOf f.name) = true := by
        cases hx : allowedExts.contains (extOf f.name)
        · exact absurd hx h1
        · rfl
      by_cases h2 : maxBytes < f.size
      · rw [addToQueue_of_oversize (gen k) f q h2, if_neg (lt_irrefl q.length)]
        exact ih k q
      · rw [addToQueue_of_ok (gen k) f q h1' (Nat.not_lt.mp h2)]
        have hc : q.length < (q ++ [(⟨gen k, f, .queued, none⟩ : QItem)]).length := by simp
        rw [if_pos hc]
        obtain ⟨t, ht⟩ := ih (k + 1) (q ++ [⟨gen k, f, .queued, none⟩])
        exact ⟨⟨gen k, f, .queued, none⟩ :: t, by rw [ht]; simp⟩

/-- C4: the queue respects the plan capacity.  For every batch selection
against a fixed capacity `c`: (a) a queue within capacity stays within
capacity — the change handler trims each batch to `c - queue.length`
before enqueueing; (b) the handler never disturbs already-queued items —
it only appends; (c) from an empty queue, a batch of `c + 1` valid files
fills the queue to exactly `c` — the (c+1)-th file is rejected while the
first `c` are all accepted; (d) with the single-file capacity 1 the
multi-file queue is never touched at all. -/
theorem c4_capacity (gen : Nat → String) (k : Nat) (files : List VFile)
    (c : Nat) (ui : UploadUI) :
    (ui.queue.length ≤ c → ((filesChange gen k files c ui).queue).length ≤ c) ∧
    (∃ t, (filesChange gen k files c ui).queue = ui.queue ++ t) ∧
    (2 ≤ c → files.length = c + 1 →
      (∀ f ∈ files, allowedExts.contains (extOf f.name) = true ∧ f.size ≤ maxBytes) →
      ((filesChange gen k files c ⟨[], none⟩).queue).length = c) ∧
    ((filesChange gen k files 1 ui).queue = ui.queue) := by
  have helse : ∀ (c' : Nat) (ui' : UploadUI), ¬(1 < files.length ∧ 1 < c') →
      (filesChange gen k files c' ui').queue = ui'.queue := by
    intro c' ui' hcond
    unfold filesChange
    rw [if_neg hcond]
    cases files <;> rfl
  have hmulti : ∀ (c' : Nat) (ui' : UploadUI), (1 < files.length ∧ 1 < c') →
      (filesChange gen k files c' ui').queue =
        enqueueFiles gen k
          (jsSliceTo files ((c' : Int) - (ui'.queue.length : Int))) ui'.queue := by
    intro c' ui' hcond
    unfold filesChange
    rw [if_pos hcond]
  refine ⟨?_, ?_, ?_, ?_⟩
  · intro hq
    by_cases hcond : 1 < files.length ∧ 1 < c
    · rw [hmulti c ui hcond]
      have hsl : (jsSliceTo files ((c : Int) - (ui.queue.length : Int))).length ≤
          c - ui.queue.length := by
        unfold jsSliceTo
        rw [if_pos (by omega : (0 : Int) ≤ (c : Int) - (ui.queue.length : Int))]
        have hn : ((c : Int) - (ui.queue.length : Int)).toNat = c - ui.queue.length := by
          omega
        rw [hn]
        calc (files.take (c - ui.queue.length)).length
            = min (c - ui.queue.length) files.length := List.length_take _ _
          _ ≤ c - ui.queue.length := Nat.min_le_left _ _
      have hb := enqueueFiles_len_le gen
        (jsSliceTo files ((c : Int) - (ui.queue.length : Int))) k ui.queue
      omega
    · rw [helse c ui hcond]
      exact hq
  · by_cases hcond : 1 < files.length ∧ 1 < c
    · rw [hmulti c ui hcond]
      exact enqueueFiles_append gen _ k ui.queue
    · exact ⟨[], by rw [helse c ui hcond]; simp⟩
  · intro h2 hlen hval
    have hcond : 1 < files.length ∧ 1 < c := ⟨by omega, by omega⟩
    rw [hmulti c ⟨[], none⟩ hcond]
    have hz : ((⟨[], none⟩ : UploadUI).queue.length : Int) = 0 := by rfl
    rw [hz]
    have hsl : jsSliceTo files ((c : Int) - 0) = files.take c := by
      unfold jsSliceTo
      rw [if_pos (by omega : (0 : Int) ≤ (c : Int) - 0)]
      have hn : ((c : Int) - 0).toNat = c := by omega
      rw [hn]
    rw [hsl]
    have hex := enqueueFiles_len_exact gen (files.take c) k []
      (fun g hg => hval g (List.take_subset c files hg))
    rw [hex]
    simp only [List.length_nil, List.length_take, Nat.zero_add]
    omega
  · exact helse 1 ui (by omega)

/-- C4 witness: from an empty queue with capacity 2, a batch of three
valid files yields a queue of exactly two items (and the capacity bound
holds). -/
theorem c4_witness :
    ((filesChange gen0 0 [fileA, fileB, fileC] 2 ⟨[], none⟩).queue).length ≤ 2 ∧
    ((filesChange gen0 0 [fileA, fileB, fileC] 2 ⟨[], none⟩).queue).length = 2 :=
  ⟨(c4_capacity gen0 0 [fileA, fileB, fileC] 2 ⟨[], none⟩).1 (by decide),
   (c4_capacity gen0 0 [fileA, fileB, fileC] 2 ⟨[], none⟩).2.2.1 (by decide) (by decide)
     (by decide)⟩

theorem runQueue_nil (tp : Nat → TransportResult) (k : Nat) :
    runQueue tp [] k = ([], []) := rfl

theorem runQueue_cons (tp : Nat → TransportResult) (it : QItem) (rest : List QItem)
    (k : Nat) :
    runQueue tp (it :: rest) k =
      (settleItem it (tp k) :: (runQueue tp rest (k + 1)).1,
       Ev.reportUploading k :: Ev.startTransport k ::
         Ev.terminal k (tp k).isOk :: (runQueue tp rest (k + 1)).2) := rfl

theorem settleItem_status (it : QItem) (r : TransportResult) :
    (settleItem it r).status = if r.isOk then Status.done else Status.failed := by
  cases r <;> rfl

theorem runQueue_len (tp : Nat → TransportResult) :
    ∀ (q : List QItem) (k : Nat), ((runQueue tp q k).1).length = q.length := by
  intro q
  induction q with
  | nil => intro k; rfl
  | cons it rest ih =>
    intro k
    rw [runQueue_cons]
    simp only [List.length_cons, ih (k + 1)]

theorem runQueue_head_events (tp : Nat → TransportResult) :
    ∀ (q : List QItem) (k : Nat), q ≠ [] →
      Ev.reportUploading k ∈ (runQueue tp q k).2 ∧
      Ev.startTransport k ∈ (runQueue tp q k).2 := by
  intro q k hq
  cases q with
  | nil => exact absurd rfl hq
  | cons it rest =>
    rw [runQueue_cons]
    exact ⟨List.mem_cons_self _ _, List.mem_cons_of_mem _ (List.mem_cons_self _ _)⟩

/-- The trace decomposes around the block of item `k + i`: everything
before it talks about smaller indices, and (when a next item exists) the
next item's events occur after it. -/
theorem runQueue_trace_block (tp : Nat → TransportResult) :
    ∀ (q : List QItem) (k i : Nat), i + 1 < q.length →
      ∃ l1 l2, (runQueue tp q k).2 =
          l1 ++ Ev.reportUploading (k + i) :: Ev.startTransport (k + i) ::
            Ev.terminal (k + i) (tp (k + i)).isOk :: l2 ∧
        (∀ e ∈ l1, e.idx < k + i) ∧
        Ev.reportUploading (k + i + 1) ∈ l2 ∧
        Ev.startTransport (k + i + 1) ∈ l2 := by
  intro q
  induction q with
  | nil => intro k i h; simp at h
  | cons it rest ih =>
    intro k i h
    cases i with
    | zero =>
      have hrest : rest ≠ [] := by
        intro hr
        rw [hr] at h
        simp at h
      obtain ⟨hm1, hm2⟩ := runQueue_head_events tp rest (k + 1) hrest
      refine ⟨[], (runQueue tp rest (k + 1)).2, ?_, ?_, ?_, ?_⟩
      · rw [runQueue_cons]
        simp
      · intro e he
        cases he
      · simpa using hm1
      · simpa using hm2
    | succ n =>
      have hn : n + 1 < rest.length := by
        simp only [List.length_cons] at h
        omega
      obtain ⟨l1, l2, heq, hlt, hm1, hm2⟩ := ih (k + 1) n hn
      have hidx : k + 1 + n = k + (n + 1) := by omega
      rw [hidx] at heq hlt hm1 hm2
      refine ⟨Ev.reportUploading k :: Ev.startTransport k ::
        Ev.terminal k (tp k).isOk :: l1, l2, ?_, ?_, ?_, ?_⟩
      · rw [runQueue_cons]
        simp [heq]
      · intro e he
        simp only [List.mem_cons] at he
        rcases he with rfl | rfl | rfl | he
        · simp only [Ev.idx]; omega
        · simp only [Ev.idx]; omega
        · simp only [Ev.idx]; omega
        · exact hlt e he
      · exact hm1
      · exact hm2

/-- If the trace splits as `l1 ++ a :: l2` with `b` occurring neither in
`l1` nor equal to `a`, then in the whole trace `a` precedes every
occurrence of `b`. -/
theorem precedes_of_split (l1 l2 : List Ev) (a b : Ev)
    (hb1 : b ∉ l1) : precedesIn a b (l1 ++ a :: l2) := by
  intro n hbn
  rw [List.take_append_eq_append_take] at hbn ⊢
  rcases List.mem_append.mp hbn with h1 | h2
  · exact absurd (List.take_subset _ _ h1) hb1
  · have hpos : 0 < n - l1.length := by
      by_contra hz
      push_neg at hz
      rw [Nat.le_zero] at hz
      rw [hz] at h2
      simp at h2
    obtain ⟨m, hm⟩ : ∃ m, n - l1.length = m + 1 :=
      ⟨n - l1.length - 1, by omega⟩
    apply List.mem_append_right
    rw [hm, List.take_succ_cons]
    exact List.mem_cons_self _ _

/-- C6: the pipeline is strictly sequential.  In the event trace of a
processQueue run, item `i`'s terminal transition precedes every
occurrence of item `i+1`'s transport start (so item `i+1` never begins
transport before item `i` reached DONE or FAILED), item `i`'s UPLOADING
report precedes item `i+1`'s UPLOADING report, and item `i+1`'s
transport start does occur. -/
theorem c6_sequential (tp : Nat → TransportResult) (q : List QItem) (i : Nat)
    (h : i + 1 < q.length) :
    precedesIn (Ev.terminal i (tp i).isOk) (Ev.startTransport (i + 1))
      ((runQueue tp q 0).2) ∧
    precedesIn (Ev.reportUploading i) (Ev.reportUploading (i + 1))
      ((runQueue tp q 0).2) ∧
    Ev.startTransport (i + 1) ∈ (runQueue tp q 0).2 := by
  obtain ⟨l1, l2, heq, hlt, hm1, hm2⟩ := runQueue_trace_block tp q 0 i h
  simp only [Nat.zero_add] at heq hlt hm1 hm2
  refine ⟨?_, ?_, ?_⟩
  · have heq' : (runQueue tp q 0).2 =
        (l1 ++ [Ev.reportUploading i, Ev.startTransport i]) ++
          Ev.terminal i (tp i).isOk :: l2 := by
      rw [heq]
      simp
    rw [heq']
    apply precedes_of_split
    · intro hmem
      have hidx : (Ev.startTransport (i + 1)).idx ≤ i := by
        rcases List.mem_append.mp hmem with hA | hB
        · exact Nat.le_of_lt (hlt _ hA)
        · simp only [List.mem_cons, List.not_mem_nil, or_false] at hB
          rcases hB with hB | hB <;> rw [hB] <;> simp [Ev.idx]
      simp only [Ev.idx] at hidx
      omega
  · rw [heq]
    apply precedes_of_split
    · intro hmem
      have := hlt _ hmem
      simp only [Ev.idx] at this
      omega
  · rw [heq]
    apply List.mem_append_right
    exact List.mem_cons_of_mem _ (List.mem_cons_of_mem _ (List.mem_cons_of_mem _ hm2))

/-- C6 witness: the ordering facts instantiated on a concrete two-item
queue with the spec §8 outcomes. -/
theorem c6_witness :
    precedesIn (Ev.terminal 0 (tp3 0).isOk) (Ev.startTransport 1)
      ((runQueue tp3 [itA, itB] 0).2) ∧
    precedesIn (Ev.reportUploading 0) (Ev.reportUploading 1)
      ((runQueue tp3 [itA, itB] 0).2) ∧
    Ev.startTransport 1 ∈ (runQueue tp3 [itA, itB] 0).2 :=
  c6_sequential tp3 [itA, itB] 0 (by decide)

theorem runQueue_getD_status (tp : Nat → TransportResult) :
    ∀ (q : List QItem) (k i : Nat), i < q.length →
      (((runQueue tp q k).1).getD i default).status =
        (if (tp (k + i)).isOk then Status.done else Status.failed) := by
  intro q
  induction q with
  | nil => intro k i h; simp at h
  | cons it rest ih =>
    intro k i h
    rw [runQueue_cons]
    cases i with
    | zero =>
      rw [List.getD_cons_zero, settleItem_status]
      simp
    | succ n =>
      rw [List.getD_cons_succ, ih (k + 1) n (by simpa using h)]
      have hidx : k + 1 + n = k + (n + 1) := by omega
      rw [hidx]

/-- C7 (amended): every per-item transport failure — a non-2xx response
(validation, quota, server, or the gateway's no-retry-after-refresh 401)
as much as a thrown network error — is absorbed at that item's try/catch
boundary into the terminal FAILED status: the pipeline always settles
every item of the queue (the run is total, no exception escapes), the
settled queue has the same length, and the item at each index carries
exactly the terminal status determined by its own transport outcome, so
a failure never aborts the remaining items. -/
theorem c7_failure_isolated (tp : Nat → TransportResult) (q : List QItem) :
    ((runQueue tp q 0).1).length = q.length ∧
    ∀ i, i < q.length →
      (((runQueue tp q 0).1).getD i default).status =
        (if (tp i).isOk then Status.done else Status.failed) := by
  refine ⟨runQueue_len tp q 0, ?_⟩
  intro i hi
  simpa using runQueue_getD_status tp q 0 i hi

/-- C7 counterexample (against "plus a stored reason"): a server error
and a network error settle the item into literally the same final state —
only the FAILED status is stored, no reason is retained anywhere in the
item. -/
theorem c7_no_reason_stored :
    (runQueue (fun _ => .httpError 500) [itA] 0).1 = [⟨"a", fileA, .failed, none⟩] ∧
    (runQueue (fun _ => .httpError 500) [itA] 0).1 =
      (runQueue (fun _ => .thrown) [itA] 0).1 := by
  decide

/-- C7 witness: in the spec §8 scenario the failing middle item is FAILED. -/
theorem c7_witness :
    (((runQueue tp3 q3 0).1).getD 1 default).status =
      (if (tp3 1).isOk then Status.done else Status.failed) :=
  (c7_failure_isolated tp3 q3).2 1 (by decide)

theorem runQueue_map_status (tp : Nat → TransportResult) :
    ∀ (q : List QItem) (k : Nat),
      ((runQueue tp q k).1).map QItem.status =
        (List.range' k q.length).map
          (fun i => if (tp i).isOk then Status.done else Status.failed) := by
  intro q
  induction q with
  | nil => intro k; rfl
  | cons it rest ih =>
    intro k
    rw [runQueue_cons]
    simp only [List.length_cons, List.range'_succ, List.map_cons]
    rw [settleItem_status, ih (k + 1)]

theorem runQueue_display (tp : Nat → TransportResult) :
    ∀ (q : List QItem) (k : Nat),
      (((runQueue tp q k).1).find? (fun f => f.status == Status.done)).bind QItem.result =
        ((List.range' k q.length).find? (fun i => (tp i).isOk)).map
          (fun i => payloadOf (tp i)) := by
  intro q
  induction q with
  | nil => intro k; rfl
  | cons it rest ih =>
    intro k
    rw [runQueue_cons]
    simp only [List.length_cons, List.range'_succ]
    cases htp : tp k with
    | ok p =>
      rw [List.find?_cons_of_pos _ (by simp [settleItem]),
          List.find?_cons_of_pos _ (by simp [htp, TransportResult.isOk])]
      simp [settleItem, htp, payloadOf]
    | httpError s =>
      rw [List.find?_cons_of_neg _ (by simp [settleItem]),
          List.find?_cons_of_neg _ (by simp [htp, TransportResult.isOk])]
      exact ih (k + 1)
    | thrown =>
      rw [List.find?_cons_of_neg _ (by simp [settleItem]),
          List.find?_cons_of_neg _ (by simp [htp, TransportResult.isOk])]
      exact ih (k + 1)

/-- C8: for every completed run over a non-empty queue, the settled queue
lists each item's terminal status in original order; the displayed
representative result is the payload of the first (in original order)
successful item; and the aggregate is the overall-failure display exactly
when no item succeeded. -/
theorem c8_first_success (tp : Nat → TransportResult) (q : List QItem) (r : PQResult)
    (h : processQueue tp q = some r) :
    r.queue.map QItem.status =
      (List.range q.length).map
        (fun i => if (tp i).isOk then Status.done else Status.failed) ∧
    r.display = (firstOkIdx tp q.length).map (fun i => payloadOf (tp i)) ∧
    (r.display = none ↔ ∀ i, i < q.length → (tp i).isOk = false) := by
  unfold processQueue at h
  by_cases hq : q.isEmpty
  · rw [if_pos hq] at h
    cases h
  · rw [if_neg hq] at h
    injection h with h
    subst h
    have hdisp :
        (((runQueue tp q 0).1).find? (fun f => f.status == Status.done)).bind QItem.result =
          ((List.range' 0 q.length).find? (fun i => (tp i).isOk)).map
            (fun i => payloadOf (tp i)) := runQueue_display tp q 0
    refine ⟨?_, ?_, ?_⟩
    · show ((runQueue tp q 0).1).map QItem.status = _
      rw [runQueue_map_status tp q 0, List.range_eq_range']
    · show (((runQueue tp q 0).1).find? (fun f => f.status == Status.done)).bind
        QItem.result = _
      rw [hdisp]
      unfold firstOkIdx
      rw [List.range_eq_range']
    · show (((runQueue tp q 0).1).find? (fun f => f.status == Status.done)).bind
        QItem.result = none ↔ _
      rw [hdisp, Option.map_eq_none', List.find?_eq_none]
      constructor
      · intro hnone i hi
        have := hnone i (List.mem_range'_1.mpr ⟨Nat.zero_le i, by omega⟩)
        simpa using this
      · intro hall i hi
        have hi' := List.mem_range'_1.mp hi
        simp [hall i (by omega)]

/-- C8 witness: the spec §8 scenario — statuses `[DONE, FAILED, DONE]` in
order and item 1's payload as the representative result. -/
theorem c8_witness :
    pqr3.queue.map QItem.status =
      (List.range q3.length).map
        (fun i => if (tp3 i).isOk then Status.done else Status.failed) ∧
    pqr3.display = (firstOkIdx tp3 q3.length).map (fun i => payloadOf (tp3 i)) :=
  ⟨(c8_first_success tp3 q3 pqr3 (by decide)).1,
   (c8_first_success tp3 q3 pqr3 (by decide)).2.1⟩

/-- C9 counterexample: the two entry points are not semantically
equivalent.  From the same initial conditions — stored access token
expired, valid refresh credential present — the pipeline run on the
queue of length one routes transport through the session gateway, which
refreshes once and succeeds, while `splitVideo`'s raw XMLHttpRequest
path issues no refresh call and surfaces a sign-in error. -/
theorem c9_not_equivalent :
    (splitVideo st0 sv0 ⟨7⟩).success = none ∧
    (splitVideo st0 sv0 ⟨7⟩).errorMsg = some "Please sign in to upload videos." ∧
    (splitVideo st0 sv0 ⟨7⟩).refreshCalls = 0 ∧
    processQueue (fun _ => gatewayTransport st0 sv0 ⟨7⟩) [itA] =
      some ⟨[⟨"a", fileA, .done, some ⟨7⟩⟩],
            [.reportUploading 0, .startTransport 0, .terminal 0 true], some ⟨7⟩⟩ ∧
    (run (mkInit st0 sv0 1) [0, 0, 0, 0]).refreshCalls = 1 := by
  decide

/-- C9 (amended): the two entry points do share the identical validation
contract — a file is accepted into the queue (the queue grows by one)
exactly when the single-file path accepts it, under the same extension
allow-list and the same strict 500 MiB bound — but their transport
contracts differ (see the counterexample). -/
theorem c9_same_validation (f : VFile) (fid : String) (q : List QItem) :
    (addToQueue fid f q).length = q.length + 1 ↔ handleFileSelect f none = some f := by
  by_cases h1 : allowedExts.contains (extOf f.name) = false
  · have hL := addToQueue_of_bad_ext fid f q h1
    have hR : handleFileSelect f none = none := by
      unfold handleFileSelect
      rw [h1]
      simp
    rw [hL, hR]
    constructor
    · intro hc; omega
    · intro hc; exact Option.noConfusion hc
  · have h1' : allowedExts.contains (extOf f.name) = true := by
      cases hx : allowedExts.contains (extOf f.name)
      · exact absurd hx h1
      · rfl
    by_cases h2 : maxBytes < f.size
    · have hL := addToQueue_of_oversize fid f q h2
      have hR : handleFileSelect f none = none := by
        unfold handleFileSelect
        rw [h1']
        simp [h2]
      rw [hL, hR]
      constructor
      · intro hc; omega
      · intro hc; exact Option.noConfusion hc
    · have hL := addToQueue_of_ok fid f q h1' (Nat.not_lt.mp h2)
      have hR : handleFileSelect f none = some f := by
        unfold handleFileSelect
        rw [h1']
        simp [h2]
      rw [hL, hR]
      simp

/-- C2 witness: a concrete request replaying with the stale token `t0`
after a refresh cycle; the replay is rejected (another 401) and the
request fails immediately with the refresh-call count untouched. -/
theorem c2_witness :
    (handleEvent gRetry 0).refreshCalls = gRetry.refreshCalls ∧
    (handleEvent gRetry 0).reqs.getD 0 (.done false) =
      .done (fetchOk gRetry.server (some "t0")) ∧
    handleEvent (handleEvent gRetry 0) 0 = handleEvent gRetry 0 :=
  c2_no_second_refresh gRetry 0 "t0" (by decide)

end VideoSplit
